import Mathlib

/-!
Formal model of the BTC_EXP mining-deviation simulation core
(`src/sim/simulate.py`), together with theorems checking the
natural-language specification against it.

The simulation is a deterministic computation over real-valued block data:
each round reads one historical block record (cyclically), updates the
fee-market controller state (base fee and adaptive capacity), computes
propagation/orphan probabilities, and compares each miner's expected honest
profit against its expected deviation profit.  We embed it functionally:
`ctrlAt` gives the controller state entering round `t`, `roundOf` computes
all per-round quantities, `decide_and_record` is `Miner.decide_and_record`,
and `run_once` assembles the aggregate `RunResult`.
-/

namespace BtcExp

/-- One historical block record of the consolidated block feed
(columns used by `run_once`): `total_vbytes`, `avg_sat_per_vb`, `mev_sat`,
`date`, `block_subsidy_sat`, `btc_usd`, `miner_id` (`none` models NaN). -/
structure BlockRow where
  total_vbytes : ℝ
  avg_sat_per_vb : ℝ
  mev_sat : ℝ
  date : String
  block_subsidy_sat : ℝ
  btc_usd : ℝ
  miner_id : Option ℤ

/-- Fallback row returned when indexing an empty feed (never reached on the
validated inputs `run_once` accepts). -/
noncomputable def defaultBlockRow : BlockRow :=
  { total_vbytes := 0, avg_sat_per_vb := 0, mev_sat := 0, date := ""
    block_subsidy_sat := 0, btc_usd := 0, miner_id := none }

/-- One row of the daily pool-cost table: `date`, `miner_id`,
`cost_usd_per_day`. -/
structure DailyCostRow where
  date : String
  miner_id : ℤ
  cost_usd_per_day : ℝ

/-- All arguments of `run_once` (`simulate.py` lines 72-81), with the two
data tables inlined as lists of typed rows. -/
structure Config where
  shares : List ℝ
  costs : List ℝ
  miner_ids : List ℤ
  T : ℕ
  base_delay : ℝ
  kappa : ℝ
  gamma : ℝ
  lambda_rate : ℝ
  w_sec : ℝ
  basefee0 : ℝ
  enable_basefee : Bool
  enable_feefloor : Bool
  fee_floor_sat : ℝ
  enable_adaptive : Bool
  B_min_vB : ℝ
  B_max_vB : ℝ
  U_star : ℝ
  delta_step : ℝ
  G_norm : ℝ
  alpha : ℝ
  block_data : List BlockRow
  daily_costs : List DailyCostRow
  include_block_reward : Bool

/-- Number of miner objects created by `zip(miner_ids, shares, costs)`
(line 89): python's `zip` stops at the shortest input list. -/
def numMiners (cfg : Config) : ℕ :=
  min cfg.miner_ids.length (min cfg.shares.length cfg.costs.length)

/-- Block record used in round `t`: the feed is indexed cyclically by
`idx = t % len(block_data)` (line 164). -/
noncomputable def blockAt (cfg : Config) (t : ℕ) : BlockRow :=
  cfg.block_data.getD (t % cfg.block_data.length) defaultBlockRow

/-- BTC price per date: the first `btc_usd` among feed rows with that date
(`block_data.groupby('date')['btc_usd'].first()`, line 107). -/
noncomputable def blockBtcPrice (blocks : List BlockRow) (d : String) : Option ℝ :=
  (blocks.find? (fun b => b.date == d)).map (fun b => b.btc_usd)

/-- Fallback BTC price: the feed's mean `btc_usd`, or the hard-coded
constant on an empty feed (line 118). -/
noncomputable def fallbackBtcPrice (blocks : List BlockRow) : ℝ :=
  if blocks.length > 0 then
    (blocks.map (fun b => b.btc_usd)).sum / (blocks.length : ℝ)
  else 57774.09

/-- Satoshi cost per block derived from one daily-cost row (lines 114-123):
`cost_usd_per_day / 144` dollars per block, converted at that date's BTC
price (fallback: mean price), times `100_000_000` sat per BTC. -/
noncomputable def costSatPerBlock (blocks : List BlockRow) (r : DailyCostRow) : ℝ :=
  ((r.cost_usd_per_day / 144) / ((blockBtcPrice blocks r.date).getD (fallbackBtcPrice blocks)))
    * 100000000

/-- Lookup in the `(date, miner_id) -> cost_sat_per_block` dictionary with a
per-miner default (`cost_map.get((block_date, mid), costs[i])`, line 227).
The python dict keeps the last row written for a key, hence `getLast?`. -/
noncomputable def costMapGet (cfg : Config) (d : String) (mid : ℤ) (dflt : ℝ) : ℝ :=
  match (cfg.daily_costs.filter (fun r => r.date == d && r.miner_id == mid)).getLast? with
  | some r => costSatPerBlock cfg.block_data r
  | none => dflt

/-- Resolved cost of miner `i` for round `t` (line 227). -/
noncomputable def blockCost (cfg : Config) (t i : ℕ) : ℝ :=
  costMapGet cfg (blockAt cfg t).date (cfg.miner_ids.getD i 0) (cfg.costs.getD i 0)

/-- Fee-market controller state carried across rounds: current base fee
(sat/vB) and current capacity (vB). -/
structure Ctrl where
  basefee : ℝ
  Bt_vB : ℝ

/-- Base-fee update (lines 127-133): when enabled,
`max(0, basefee * (1 + alpha * (U_t - U_star) / U_star))` clamped at the
`1e15` sentinel; when disabled the base fee is returned unchanged. -/
noncomputable def basefee_update (cfg : Config) (basefee U_t : ℝ) : ℝ :=
  if cfg.enable_basefee = false then basefee
  else
    let delta := cfg.alpha * (U_t - cfg.U_star) / cfg.U_star
    let new_basefee := max 0 (basefee * (1 + delta))
    min new_basefee 1e15

/-- Adaptive capacity update (lines 135-144): grow by the relative step
capped at `B_max_vB` above target utilization, shrink floored at `B_min_vB`
below target, unchanged at target or when disabled. -/
noncomputable def adaptive_B (cfg : Config) (Bt_vB U_t : ℝ) : ℝ :=
  if cfg.enable_adaptive = false then Bt_vB
  else if U_t > cfg.U_star then min cfg.B_max_vB ((1 + cfg.delta_step) * Bt_vB)
  else if U_t < cfg.U_star then max cfg.B_min_vB ((1 - cfg.delta_step) * Bt_vB)
  else Bt_vB

/-- All quantities computed inside one iteration of the main loop
(lines 162-255) from the incoming controller state. -/
structure Round where
  U_t : ℝ
  Bt_vB' : ℝ
  basefee' : ℝ
  F_eff : ℝ
  delta_sec : ℝ
  rho_honest : ℝ
  rho_dev : ℝ
  X_t : ℝ
  G_t : ℝ

/-- One round of the main loop (lines 162-224): utilization against the
incoming capacity, adaptive-capacity and base-fee updates, effective fee,
propagation delay and orphan probabilities, total reward `X_t` and
congestion-scaled deviation bonus `G_t`. -/
noncomputable def roundOf (cfg : Config) (c : Ctrl) (t : ℕ) : Round :=
  let row := blockAt cfg t
  let F_rate := row.avg_sat_per_vb
  let M := row.mev_sat
  let R_t := if cfg.include_block_reward then row.block_subsidy_sat else 0
  let vB_t := row.total_vbytes
  let U_t := min 1 (vB_t / c.Bt_vB)
  let Bt_vB' := adaptive_B cfg c.Bt_vB U_t
  let Bt_MB := Bt_vB' / 1000000
  let basefee' := basefee_update cfg c.basefee U_t
  let F_raw := F_rate * vB_t
  let F := if cfg.enable_basefee then max F_raw (basefee' * vB_t) else F_raw
  let F_eff := if cfg.enable_feefloor then max F cfg.fee_floor_sat else F
  let delta_ms := cfg.base_delay + cfg.kappa * Bt_MB
  let delta_sec := delta_ms / 1000
  let rho_honest := 1 - Real.exp (-(cfg.lambda_rate * delta_sec))
  let delta_dev_sec := delta_sec + cfg.w_sec
  let rho_dev := 1 - Real.exp (-(cfg.lambda_rate * delta_dev_sec))
  let X_t := R_t + F_eff + M
  let G_t := cfg.G_norm * (U_t / cfg.U_star)
  { U_t := U_t, Bt_vB' := Bt_vB', basefee' := basefee', F_eff := F_eff
    delta_sec := delta_sec, rho_honest := rho_honest, rho_dev := rho_dev
    X_t := X_t, G_t := G_t }

/-- Controller state entering round `t`: initialized to
`(basefee0, B_min_vB)` (lines 158-159) and advanced by each round's
updates (lines 183, 188). -/
noncomputable def ctrlAt (cfg : Config) : ℕ → Ctrl
  | 0 => { basefee := cfg.basefee0, Bt_vB := cfg.B_min_vB }
  | t + 1 =>
    let r := roundOf cfg (ctrlAt cfg t) t
    { basefee := r.basefee', Bt_vB := r.Bt_vB' }

/-- The round data of round `t` of the run. -/
noncomputable def roundAt (cfg : Config) (t : ℕ) : Round :=
  roundOf cfg (ctrlAt cfg t) t

/-- One entry of a miner's per-block history (lines 39-44). -/
structure DecisionRecord where
  block_idx : ℕ
  profit_honest : ℝ
  profit_dev : ℝ
  dev_flag : ℝ

/-- `Miner.decide_and_record` (lines 26-46): the deviate flag is `1.0`
when `profit_dev > profit_honest` and `0.0` otherwise (ties stay honest),
and the triple is appended to the miner's history. -/
noncomputable def decide_and_record (block_idx : ℕ) (profit_honest profit_dev : ℝ) :
    DecisionRecord :=
  { block_idx := block_idx, profit_honest := profit_honest, profit_dev := profit_dev
    dev_flag := if profit_dev > profit_honest then 1 else 0 }

/-- The history entry recorded for miner `i` in round `t` (lines 245-255):
`p_hon = share * (1 - rho_honest)`, `p_dev = share * (1 - rho_dev)`,
`profit_honest = p_hon * X_t - cost`, `profit_dev = p_dev * (X_t + G_t) - cost`. -/
noncomputable def recordAt (cfg : Config) (i t : ℕ) : DecisionRecord :=
  let r := roundAt cfg t
  let p_hon := cfg.shares.getD i 0 * (1 - r.rho_honest)
  let p_dev := cfg.shares.getD i 0 * (1 - r.rho_dev)
  let profit_honest := p_hon * r.X_t - blockCost cfg t i
  let profit_dev := p_dev * (r.X_t + r.G_t) - blockCost cfg t i
  decide_and_record t profit_honest profit_dev

/-- Miner `i`'s full history after the run: one record per round, appended
in round order. -/
noncomputable def historyAt (cfg : Config) (i : ℕ) : List DecisionRecord :=
  (List.range cfg.T).map (recordAt cfg i)

/-- Index of the miner who actually produced round `t`'s historical block
(lines 173, 230-232): a NaN `miner_id` becomes `-1`, and the first index of
`miner_ids` equal to it is taken (`np.where(...)[0][0]`); `none` when the
identity is absent from the miner set. -/
noncomputable def actualMinerIdx (cfg : Config) (t : ℕ) : Option ℕ :=
  cfg.miner_ids.findIdx? (fun mid => mid == ((blockAt cfg t).miner_id.getD (-1)))

/-- Contribution of round `t` to the realized deviation count (line 261):
the actual producer's recorded flag, or `0` when no miner matches. -/
noncomputable def devFlagActual (cfg : Config) (t : ℕ) : ℝ :=
  match actualMinerIdx cfg t with
  | some i => (recordAt cfg i t).dev_flag
  | none => 0

/-- Whether round `t`'s historical producer belongs to the miner set. -/
noncomputable def isActual (cfg : Config) (t : ℕ) : Bool :=
  (actualMinerIdx cfg t).isSome

/-- Realized deviation count `deviates` accumulated over the run. -/
noncomputable def deviates (cfg : Config) : ℝ :=
  ∑ t ∈ Finset.range cfg.T, devFlagActual cfg t

/-- `actual_blocks_count`: number of rounds whose historical producer is in
the miner set (line 259). -/
noncomputable def actualBlocksCount (cfg : Config) : ℕ :=
  ((List.range cfg.T).filter (fun t => isActual cfg t)).length

/-- `beta_bar = deviates / actual_blocks_count`, `0.0` when no historical
block matched (line 295). -/
noncomputable def beta_bar (cfg : Config) : ℝ :=
  if actualBlocksCount cfg > 0 then deviates cfg / (actualBlocksCount cfg : ℝ) else 0

/-- Accumulated honest profit of miner `i` (`roi_numer`, line 276). -/
noncomputable def roiNumer (cfg : Config) (i : ℕ) : ℝ :=
  ∑ t ∈ Finset.range cfg.T, (recordAt cfg i t).profit_honest

/-- Accumulated cost of miner `i` (`total_costs_accum`, line 277). -/
noncomputable def costAccum (cfg : Config) (i : ℕ) : ℝ :=
  ∑ t ∈ Finset.range cfg.T, blockCost cfg t i

/-- Per-miner ROI (lines 300-303): honest-profit sum over cost sum, `0`
when no positive cost accrued. -/
noncomputable def ROI_of (cfg : Config) (i : ℕ) : ℝ :=
  if costAccum cfg i > 0 then roiNumer cfg i / costAccum cfg i else 0

/-- Mean per-miner ROI (`np.mean`, line 304). -/
noncomputable def ROI_mean (cfg : Config) : ℝ :=
  (∑ i ∈ Finset.range (numMiners cfg), ROI_of cfg i) / (numMiners cfg : ℝ)

/-- Population standard deviation of per-miner ROI (`np.std`, line 305). -/
noncomputable def ROI_std (cfg : Config) : ℝ :=
  Real.sqrt ((∑ i ∈ Finset.range (numMiners cfg), (ROI_of cfg i - ROI_mean cfg) ^ 2)
    / (numMiners cfg : ℝ))

/-- Deviation margin of round `t` (lines 285-286):
`ratio_i = (rho_dev - rho_honest) / max(1 - rho_dev, 1e-12)` and
`D_t = G_t / max(ratio_i * X_t, 1e-12)`. -/
noncomputable def D_of (cfg : Config) (t : ℕ) : ℝ :=
  let r := roundAt cfg t
  let ratio_i := (r.rho_dev - r.rho_honest) / max (1 - r.rho_dev) 1e-12
  r.G_t / max (ratio_i * r.X_t) 1e-12

/-- Empirical probability that the deviation margin reached `1`
(`(dt_arr >= 1.0).mean()`, line 310). -/
noncomputable def pr_D_ge_1 (cfg : Config) : ℝ :=
  (∑ t ∈ Finset.range cfg.T, if D_of cfg t ≥ 1 then (1 : ℝ) else 0) / (cfg.T : ℝ)

/-- Last round's honest orphan probability, `0.0` for an empty run
(lines 271, 297). -/
noncomputable def rhoHonestFinal (cfg : Config) : ℝ :=
  if cfg.T = 0 then 0 else (roundAt cfg (cfg.T - 1)).rho_honest

/-- Last round's deviation orphan probability, `0.0` for an empty run
(lines 272, 298). -/
noncomputable def rhoDevFinal (cfg : Config) : ℝ :=
  if cfg.T = 0 then 0 else (roundAt cfg (cfg.T - 1)).rho_dev

/-- Post-simulation discounted value of miner `i`'s honest profits
(`compute_vi_post`, lines 48-61). -/
noncomputable def ViHonest (cfg : Config) (i : ℕ) : ℝ :=
  ∑ t ∈ Finset.range cfg.T, cfg.gamma ^ t * (recordAt cfg i t).profit_honest

/-- Post-simulation discounted value of miner `i`'s deviation profits. -/
noncomputable def ViDev (cfg : Config) (i : ℕ) : ℝ :=
  ∑ t ∈ Finset.range cfg.T, cfg.gamma ^ t * (recordAt cfg i t).profit_dev

/-- Aggregate result of one run (lines 317-329, metric fields). -/
structure RunResult where
  beta_bar : ℝ
  ROI_mean : ℝ
  ROI_std : ℝ
  stable_bft : Bool
  rho_honest : ℝ
  rho_dev : ℝ
  pr_D_ge_1 : ℝ

/-- `run_once` on validated data: the full deterministic simulation,
returning the aggregate metrics (lines 72-329). -/
noncomputable def run_once (cfg : Config) : RunResult :=
  { beta_bar := beta_bar cfg
    ROI_mean := ROI_mean cfg
    ROI_std := ROI_std cfg
    stable_bft := if beta_bar cfg < 1 / 3 then true else false
    rho_honest := rhoHonestFinal cfg
    rho_dev := rhoDevFinal cfg
    pr_D_ge_1 := pr_D_ge_1 cfg }

/-- Column-presence flags of the raw block feed, for the input validation
performed before the round loop (lines 93-107). -/
structure BlockTableCols where
  has_total_vbytes : Bool
  has_avg_sat_per_vb : Bool
  has_mev_sat : Bool
  has_date : Bool
  has_block_subsidy_sat : Bool
  has_height : Bool
  has_btc_usd : Bool
  has_miner_id : Bool

/-- Whether all five columns of `required_cols` (line 95) are present. -/
def requiredColsPresent (c : BlockTableCols) : Bool :=
  c.has_total_vbytes && c.has_avg_sat_per_vb && c.has_mev_sat && c.has_date
    && c.has_block_subsidy_sat

/-- The validation `run_once` performs before any round executes
(lines 93-107), in source order: empty/missing block data, missing required
columns, empty/missing daily costs, then the `btc_usd` requirement.
`blockRows`/`costRows` are the lengths of the two tables (a missing table
counts as zero rows). -/
def validateInputs (cols : BlockTableCols) (blockRows costRows : ℕ) :
    Except String Unit :=
  if blockRows = 0 then .error "Block data is required. Please provide block_data."
  else if requiredColsPresent cols = false then
    .error "Block data missing required columns"
  else if costRows = 0 then .error "Daily cost data is required. Please provide daily_costs."
  else if cols.has_btc_usd = false then .error "Block data requires btc_usd column."
  else .ok ()

/-- Whether an `Except` result is a success. -/
def exceptOk {ε α : Type} : Except ε α → Bool
  | .ok _ => true
  | .error _ => false

/-- `run_once` including its input validation: the simulation runs iff the
raw tables pass the checks of lines 93-107. -/
noncomputable def run_once_checked (cols : BlockTableCols) (cfg : Config) :
    Except String RunResult :=
  (validateInputs cols cfg.block_data.length cfg.daily_costs.length).map
    (fun _ => run_once cfg)

/-- The sweep's mean block revenue `X_t_avg` (`main`, line 445):
`mean(avg_sat_per_vb) * mean(total_vbytes) + mean(mev_sat)`. -/
noncomputable def meanX (blocks : List BlockRow) : ℝ :=
  ((blocks.map (fun b => b.avg_sat_per_vb)).sum / (blocks.length : ℝ))
      * ((blocks.map (fun b => b.total_vbytes)).sum / (blocks.length : ℝ))
    + (blocks.map (fun b => b.mev_sat)).sum / (blocks.length : ℝ)

/-- A configuration with only the deviation bonus `G_norm` replaced, as the
sweep does when moving along the `G_ratio` grid (lines 486-488) while
holding the archetype, fee floor, data and all hyperparameters fixed. -/
def withG (cfg : Config) (g : ℝ) : Config :=
  { cfg with G_norm := g }

/-- The base-fee update exactly as the specification words it: when the
policy is enabled, `max(0, basefee * (1 + alpha * (U_t - U_star) / U_star))`
clamped at the large upper sentinel; when disabled, the base fee unchanged. -/
noncomputable def basefeeUpdateSpec (cfg : Config) (basefee U_t : ℝ) : ℝ :=
  if cfg.enable_basefee then
    min (max 0 (basefee * (1 + cfg.alpha * (U_t - cfg.U_star) / cfg.U_star))) 1e15
  else basefee

/-- Propagation delay as the specification words it:
`delay = base_delay + coefficient * size_MB` in milliseconds, converted to
seconds. -/
noncomputable def delaySecSpec (base_delay coeff size_MB : ℝ) : ℝ :=
  (base_delay + coeff * size_MB) / 1000

/-- Honest orphan probability as the specification words it:
`rho_honest = 1 - exp(-rate * delay)`. -/
noncomputable def rhoHonestSpec (rate delay : ℝ) : ℝ :=
  1 - Real.exp (-(rate * delay))

/-- Deviation orphan probability as the specification words it:
`rho_dev = 1 - exp(-rate * (delay + w))`. -/
noncomputable def rhoDevSpec (rate delay w : ℝ) : ℝ :=
  1 - Real.exp (-(rate * (delay + w)))

/-- A one-block feed row used by the concrete witness configurations. -/
noncomputable def rowD : BlockRow :=
  { total_vbytes := 1, avg_sat_per_vb := 0, mev_sat := 0, date := "d"
    block_subsidy_sat := 0, btc_usd := 1, miner_id := some 7 }

/-- A zero-cost daily-cost row for miner `7` on date `"d"`. -/
noncomputable def costRowD : DailyCostRow :=
  { date := "d", miner_id := 7, cost_usd_per_day := 0 }

/-- A benign one-miner, one-round configuration used as witness input. -/
noncomputable def cfgW : Config :=
  { shares := [1], costs := [0], miner_ids := [7], T := 1
    base_delay := 1, kappa := 0, gamma := 1 / 2, lambda_rate := 1, w_sec := 1
    basefee0 := 1, enable_basefee := false, enable_feefloor := false, fee_floor_sat := 0
    enable_adaptive := false, B_min_vB := 1, B_max_vB := 2, U_star := 1, delta_step := 0
    G_norm := 1, alpha := 1 / 8, block_data := [rowD], daily_costs := [costRowD]
    include_block_reward := true }

/-- Scenario-1 input with a positive deviation bonus: single miner of share
`1.0`, zero cost, zero latency penalty `w`, zero propagation delay, one
block produced by that miner, and `G_norm = 1`. -/
noncomputable def c3x : Config :=
  { cfgW with base_delay := 0, w_sec := 0 }

/-- Adaptive-capacity input with ordered bounds `1 <= 2` but a negative
relative step `-3`; round `0` has utilization `1 > U_star = 1/2`. -/
noncomputable def cfg6x : Config :=
  { cfgW with enable_adaptive := true, delta_step := -3, U_star := 1 / 2 }

/-- Column set with the five required columns present and `btc_usd`
absent. -/
def cols7x : BlockTableCols :=
  { has_total_vbytes := true, has_avg_sat_per_vb := true, has_mev_sat := true
    has_date := true, has_block_subsidy_sat := true, has_height := true
    has_btc_usd := false, has_miner_id := true }

/-- Scenario-1 input with the deviation bonus switched off: `c3x` with
`G_norm = 0`. -/
noncomputable def c3w : Config :=
  withG c3x 0

lemma roundOf_U (cfg : Config) (c : Ctrl) (t : ℕ) :
    (roundOf cfg c t).U_t = min 1 ((blockAt cfg t).total_vbytes / c.Bt_vB) := rfl

lemma roundOf_Bt (cfg : Config) (c : Ctrl) (t : ℕ) :
    (roundOf cfg c t).Bt_vB' = adaptive_B cfg c.Bt_vB (roundOf cfg c t).U_t := rfl

lemma roundOf_basefee (cfg : Config) (c : Ctrl) (t : ℕ) :
    (roundOf cfg c t).basefee' = basefee_update cfg c.basefee (roundOf cfg c t).U_t := rfl

lemma roundOf_delta_sec (cfg : Config) (c : Ctrl) (t : ℕ) :
    (roundOf cfg c t).delta_sec
      = (cfg.base_delay + cfg.kappa * ((roundOf cfg c t).Bt_vB' / 1000000)) / 1000 := rfl

lemma roundOf_rho_honest (cfg : Config) (c : Ctrl) (t : ℕ) :
    (roundOf cfg c t).rho_honest
      = 1 - Real.exp (-(cfg.lambda_rate * (roundOf cfg c t).delta_sec)) := rfl

lemma roundOf_rho_dev (cfg : Config) (c : Ctrl) (t : ℕ) :
    (roundOf cfg c t).rho_dev
      = 1 - Real.exp (-(cfg.lambda_rate * ((roundOf cfg c t).delta_sec + cfg.w_sec))) := rfl

lemma roundOf_G (cfg : Config) (c : Ctrl) (t : ℕ) :
    (roundOf cfg c t).G_t = cfg.G_norm * ((roundOf cfg c t).U_t / cfg.U_star) := rfl

lemma one_sub_rho_honest (cfg : Config) (t : ℕ) :
    1 - (roundAt cfg t).rho_honest
      = Real.exp (-(cfg.lambda_rate * (roundAt cfg t).delta_sec)) := by
  rw [roundAt, roundOf_rho_honest]
  ring

lemma one_sub_rho_dev (cfg : Config) (t : ℕ) :
    1 - (roundAt cfg t).rho_dev
      = Real.exp (-(cfg.lambda_rate * ((roundAt cfg t).delta_sec + cfg.w_sec))) := by
  rw [roundAt, roundOf_rho_dev]
  ring

lemma recordAt_profit_honest (cfg : Config) (i t : ℕ) :
    (recordAt cfg i t).profit_honest
      = cfg.shares.getD i 0 * (1 - (roundAt cfg t).rho_honest) * (roundAt cfg t).X_t
          - blockCost cfg t i := rfl

lemma recordAt_profit_dev (cfg : Config) (i t : ℕ) :
    (recordAt cfg i t).profit_dev
      = cfg.shares.getD i 0 * (1 - (roundAt cfg t).rho_dev)
            * ((roundAt cfg t).X_t + (roundAt cfg t).G_t)
          - blockCost cfg t i := rfl

lemma recordAt_dev_flag (cfg : Config) (i t : ℕ) :
    (recordAt cfg i t).dev_flag
      = if (recordAt cfg i t).profit_dev > (recordAt cfg i t).profit_honest
          then (1 : ℝ) else 0 := rfl

lemma decide_and_record_flag_one_iff (n : ℕ) (ph pd : ℝ) :
    (decide_and_record n ph pd).dev_flag = 1 ↔ pd > ph := by
  by_cases h : pd > ph
  · simp [decide_and_record, h]
  · simp [decide_and_record, h]

lemma withG_block_data (cfg : Config) (g : ℝ) : (withG cfg g).block_data = cfg.block_data := rfl

lemma roundOf_withG (cfg : Config) (g : ℝ) (c : Ctrl) (t : ℕ) :
    roundOf (withG cfg g) c t
      = { roundOf cfg c t with G_t := g * ((roundOf cfg c t).U_t / cfg.U_star) } := rfl

lemma ctrlAt_withG (cfg : Config) (g : ℝ) : ∀ t, ctrlAt (withG cfg g) t = ctrlAt cfg t := by
  intro t
  induction t with
  | zero => rfl
  | succ t ih =>
    show (⟨(roundOf (withG cfg g) (ctrlAt (withG cfg g) t) t).basefee', _⟩ : Ctrl) = _
    rw [ih]
    rfl

lemma roundAt_withG (cfg : Config) (g : ℝ) (t : ℕ) :
    roundAt (withG cfg g) t
      = { roundAt cfg t with G_t := g * ((roundAt cfg t).U_t / cfg.U_star) } := by
  rw [roundAt, ctrlAt_withG, roundOf_withG, roundAt]

lemma list_getD_nonneg {l : List ℝ} (h : ∀ x ∈ l, 0 ≤ x) (i : ℕ) : 0 ≤ l.getD i 0 := by
  rcases lt_or_ge i l.length with hi | hi
  · rw [List.getD_eq_getElem l 0 hi]
    exact h _ (List.getElem_mem hi)
  · rw [List.getD_eq_default l 0 hi]

lemma blockAt_vbytes_nonneg (cfg : Config)
    (h : ∀ b ∈ cfg.block_data, 0 ≤ b.total_vbytes) (t : ℕ) :
    0 ≤ (blockAt cfg t).total_vbytes := by
  rw [blockAt]
  rcases lt_or_ge (t % cfg.block_data.length) cfg.block_data.length with hi | hi
  · rw [List.getD_eq_getElem _ _ hi]
    exact h _ (List.getElem_mem hi)
  · rw [List.getD_eq_default _ _ hi]
    exact le_refl 0

lemma Bt_pos (cfg : Config) (h1 : 0 < cfg.B_min_vB) (h2 : 0 < cfg.B_max_vB)
    (h3 : 0 ≤ cfg.delta_step) : ∀ t, 0 < (ctrlAt cfg t).Bt_vB := by
  intro t
  induction t with
  | zero => exact h1
  | succ t ih =>
    show 0 < (roundOf cfg (ctrlAt cfg t) t).Bt_vB'
    rw [roundOf_Bt, adaptive_B]
    split
    · exact ih
    · split
      · exact lt_min h2 (mul_pos (by linarith) ih)
      · split
        · exact lt_of_lt_of_le h1 (le_max_left _ _)
        · exact ih

lemma U_nonneg (cfg : Config) (hfeed : ∀ b ∈ cfg.block_data, 0 ≤ b.total_vbytes)
    (hB : 0 < (ctrlAt cfg t).Bt_vB) : 0 ≤ (roundAt cfg t).U_t := by
  rw [roundAt, roundOf_U]
  exact le_min zero_le_one (div_nonneg (blockAt_vbytes_nonneg cfg hfeed t) hB.le)

lemma recordAt_flag_cases (cfg : Config) (i t : ℕ) :
    (recordAt cfg i t).dev_flag = 1 ∨ (recordAt cfg i t).dev_flag = 0 := by
  rw [recordAt_dev_flag]
  split
  · exact Or.inl rfl
  · exact Or.inr rfl

lemma recordAt_flag_one_iff (cfg : Config) (i t : ℕ) :
    (recordAt cfg i t).dev_flag = 1
      ↔ (recordAt cfg i t).profit_dev > (recordAt cfg i t).profit_honest :=
  decide_and_record_flag_one_iff t _ _

lemma withG_shares (cfg : Config) (g : ℝ) : (withG cfg g).shares = cfg.shares := rfl

lemma withG_blockCost (cfg : Config) (g : ℝ) (t i : ℕ) :
    blockCost (withG cfg g) t i = blockCost cfg t i := rfl

lemma profit_dev_mono (s e X c b R g1 g2 : ℝ) (hs : 0 ≤ s) (he : 0 ≤ e) (hR : 0 ≤ R)
    (hg : g1 ≤ g2) (h : b < s * e * (X + g1 * R) - c) : b < s * e * (X + g2 * R) - c := by
  nlinarith [mul_nonneg (mul_nonneg (mul_nonneg hs he) (sub_nonneg.mpr hg)) hR]

lemma devflag_mono_G (cfg : Config) (g1 g2 : ℝ)
    (hshares : ∀ s ∈ cfg.shares, 0 ≤ s) (hU : 0 < cfg.U_star)
    (hfeed : ∀ b ∈ cfg.block_data, 0 ≤ b.total_vbytes)
    (hb1 : 0 < cfg.B_min_vB) (hb2 : 0 < cfg.B_max_vB) (hds : 0 ≤ cfg.delta_step)
    (hg : g1 ≤ g2) (i t : ℕ) :
    (recordAt (withG cfg g1) i t).dev_flag ≤ (recordAt (withG cfg g2) i t).dev_flag := by
  have himp : (recordAt (withG cfg g1) i t).profit_dev
        > (recordAt (withG cfg g1) i t).profit_honest
      → (recordAt (withG cfg g2) i t).profit_dev
        > (recordAt (withG cfg g2) i t).profit_honest := by
    simp only [recordAt_profit_dev, recordAt_profit_honest, roundAt_withG, withG_shares,
      withG_blockCost]
    intro h
    have he : 0 ≤ 1 - (roundAt cfg t).rho_dev := by
      rw [one_sub_rho_dev]
      exact (Real.exp_pos _).le
    have hR : 0 ≤ (roundAt cfg t).U_t / cfg.U_star :=
      div_nonneg (U_nonneg cfg hfeed (Bt_pos cfg hb1 hb2 hds t)) hU.le
    exact profit_dev_mono _ _ _ _ _ _ g1 g2 (list_getD_nonneg hshares i) he hR hg h
  rcases recordAt_flag_cases (withG cfg g1) i t with h1 | h1
  · have h2 : (recordAt (withG cfg g2) i t).dev_flag = 1 :=
      (recordAt_flag_one_iff _ _ _).mpr (himp ((recordAt_flag_one_iff _ _ _).mp h1))
    rw [h1, h2]
  · rw [h1]
    rcases recordAt_flag_cases (withG cfg g2) i t with h2 | h2
    · rw [h2]; norm_num
    · rw [h2]

lemma beta_bar_mono_G (cfg : Config) (g1 g2 : ℝ)
    (hshares : ∀ s ∈ cfg.shares, 0 ≤ s) (hU : 0 < cfg.U_star)
    (hfeed : ∀ b ∈ cfg.block_data, 0 ≤ b.total_vbytes)
    (hb1 : 0 < cfg.B_min_vB) (hb2 : 0 < cfg.B_max_vB) (hds : 0 ≤ cfg.delta_step)
    (hg : g1 ≤ g2) :
    beta_bar (withG cfg g1) ≤ beta_bar (withG cfg g2) := by
  have hdevle : deviates (withG cfg g1) ≤ deviates (withG cfg g2) := by
    rw [deviates, deviates]
    apply Finset.sum_le_sum
    intro t _
    have hidx1 : actualMinerIdx (withG cfg g1) t = actualMinerIdx cfg t := rfl
    have hidx2 : actualMinerIdx (withG cfg g2) t = actualMinerIdx cfg t := rfl
    cases hca : actualMinerIdx cfg t with
    | none => simp [devFlagActual, hidx1, hidx2, hca]
    | some i =>
      simp only [devFlagActual, hidx1, hidx2, hca]
      exact devflag_mono_G cfg g1 g2 hshares hU hfeed hb1 hb2 hds hg i t
  have hcnt1 : actualBlocksCount (withG cfg g1) = actualBlocksCount cfg := rfl
  have hcnt2 : actualBlocksCount (withG cfg g2) = actualBlocksCount cfg := rfl
  rw [beta_bar, beta_bar, hcnt1, hcnt2]
  split_ifs with h
  · have hpos : (0 : ℝ) < (actualBlocksCount cfg : ℝ) := by exact_mod_cast h
    exact (div_le_div_iff_of_pos_right hpos).mpr hdevle
  · exact le_refl 0

/-- C1: for every round and every miner, the recorded deviate flag is `1`
iff the deviation expected profit strictly exceeds the honest expected
profit; when the two profits are equal the flag is `0` (the miner stays
honest). -/
theorem claim_C1_dev_flag (cfg : Config) (i : ℕ) :
    ∀ rec ∈ historyAt cfg i,
      (rec.dev_flag = 1 ↔ rec.profit_dev > rec.profit_honest)
        ∧ (rec.profit_dev = rec.profit_honest → rec.dev_flag = 0) := by
  intro rec hrec
  rw [historyAt] at hrec
  obtain ⟨t, -, rfl⟩ := List.mem_map.mp hrec
  refine ⟨decide_and_record_flag_one_iff t _ _, fun he => ?_⟩
  rw [recordAt_dev_flag, he]
  simp

/-- Witness for C1 at the concrete configuration `cfgW`, miner `0`,
round `0`. -/
theorem claim_C1_witness :
    ((recordAt cfgW 0 0).dev_flag = 1
        ↔ (recordAt cfgW 0 0).profit_dev > (recordAt cfgW 0 0).profit_honest)
      ∧ ((recordAt cfgW 0 0).profit_dev = (recordAt cfgW 0 0).profit_honest
          → (recordAt cfgW 0 0).dev_flag = 0) :=
  claim_C1_dev_flag cfgW 0 (recordAt cfgW 0 0) (by simp [historyAt, cfgW])

/-- C2: when the base-fee policy is enabled, the update sets the base fee
to `max(0, basefee * (1 + alpha * (U_t - U_star) / U_star))` clamped at the
`1e15` sentinel; when disabled it leaves the base fee exactly unchanged;
and each round's new controller base fee is exactly this update applied to
the previous base fee at the round's utilization. -/
theorem claim_C2_basefee (cfg : Config) (b U : ℝ) (t : ℕ) :
    basefee_update cfg b U = basefeeUpdateSpec cfg b U
      ∧ (cfg.enable_basefee = false → basefee_update cfg b U = b)
      ∧ (ctrlAt cfg (t + 1)).basefee
          = basefee_update cfg (ctrlAt cfg t).basefee (roundAt cfg t).U_t := by
  refine ⟨?_, fun h => ?_, rfl⟩
  · rw [basefee_update, basefeeUpdateSpec]
    cases h : cfg.enable_basefee
    · simp
    · simp
  · rw [basefee_update]
    simp [h]

/-- Witness for C2 at the concrete configuration `cfgW`. -/
theorem claim_C2_witness :
    basefee_update cfgW 1 1 = basefeeUpdateSpec cfgW 1 1
      ∧ (cfgW.enable_basefee = false → basefee_update cfgW 1 1 = 1)
      ∧ (ctrlAt cfgW 1).basefee
          = basefee_update cfgW (ctrlAt cfgW 0).basefee (roundAt cfgW 0).U_t :=
  claim_C2_basefee cfgW 1 1 0

/-- C5: in every round the propagation model computes
`delay = base_delay + coefficient * size_MB` in milliseconds, converts it
to seconds, and returns `rho_honest = 1 - exp(-rate * delay)` and
`rho_dev = 1 - exp(-rate * (delay + w))`, with `size_MB` the round's
current capacity in megabytes. -/
theorem claim_C5_propagation (cfg : Config) (t : ℕ) :
    (roundAt cfg t).delta_sec
        = delaySecSpec cfg.base_delay cfg.kappa ((roundAt cfg t).Bt_vB' / 1000000)
      ∧ (roundAt cfg t).rho_honest
          = rhoHonestSpec cfg.lambda_rate (roundAt cfg t).delta_sec
      ∧ (roundAt cfg t).rho_dev
          = rhoDevSpec cfg.lambda_rate (roundAt cfg t).delta_sec cfg.w_sec :=
  ⟨rfl, rfl, rfl⟩

/-- C8: whenever the latency penalty, arrival rate and delay are
non-negative, the deviation orphan probability is at least the honest one
and both lie in `[0, 1)`. -/
theorem claim_C8_orphan_risk (cfg : Config) (t : ℕ)
    (hl : 0 ≤ cfg.lambda_rate) (hw : 0 ≤ cfg.w_sec)
    (hd : 0 ≤ (roundAt cfg t).delta_sec) :
    (roundAt cfg t).rho_honest ≤ (roundAt cfg t).rho_dev
      ∧ 0 ≤ (roundAt cfg t).rho_honest ∧ (roundAt cfg t).rho_honest < 1
      ∧ 0 ≤ (roundAt cfg t).rho_dev ∧ (roundAt cfg t).rho_dev < 1 := by
  have e1 : (roundAt cfg t).rho_honest
      = 1 - Real.exp (-(cfg.lambda_rate * (roundAt cfg t).delta_sec)) := by
    rw [roundAt, roundOf_rho_honest]
  have e2 : (roundAt cfg t).rho_dev
      = 1 - Real.exp (-(cfg.lambda_rate * ((roundAt cfg t).delta_sec + cfg.w_sec))) := by
    rw [roundAt, roundOf_rho_dev]
  have ha : 0 ≤ cfg.lambda_rate * (roundAt cfg t).delta_sec := mul_nonneg hl hd
  have hb : 0 ≤ cfg.lambda_rate * ((roundAt cfg t).delta_sec + cfg.w_sec) :=
    mul_nonneg hl (by linarith)
  have hc : cfg.lambda_rate * (roundAt cfg t).delta_sec
      ≤ cfg.lambda_rate * ((roundAt cfg t).delta_sec + cfg.w_sec) := by
    nlinarith [mul_nonneg hl hw]
  have p1 : Real.exp (-(cfg.lambda_rate * (roundAt cfg t).delta_sec)) ≤ 1 := by
    rw [show (1 : ℝ) = Real.exp 0 from Real.exp_zero.symm]
    exact Real.exp_le_exp.mpr (by linarith)
  have p2 : Real.exp (-(cfg.lambda_rate * ((roundAt cfg t).delta_sec + cfg.w_sec))) ≤ 1 := by
    rw [show (1 : ℝ) = Real.exp 0 from Real.exp_zero.symm]
    exact Real.exp_le_exp.mpr (by linarith)
  have p3 : Real.exp (-(cfg.lambda_rate * ((roundAt cfg t).delta_sec + cfg.w_sec)))
      ≤ Real.exp (-(cfg.lambda_rate * (roundAt cfg t).delta_sec)) :=
    Real.exp_le_exp.mpr (by linarith)
  have p4 := Real.exp_pos (-(cfg.lambda_rate * (roundAt cfg t).delta_sec))
  have p5 := Real.exp_pos (-(cfg.lambda_rate * ((roundAt cfg t).delta_sec + cfg.w_sec)))
  rw [e1, e2]
  exact ⟨by linarith, by linarith, by linarith, by linarith, by linarith⟩

/-- Witness for C8 at the concrete configuration `cfgW`, round `0`. -/
theorem claim_C8_witness :
    (roundAt cfgW 0).rho_honest ≤ (roundAt cfgW 0).rho_dev
      ∧ 0 ≤ (roundAt cfgW 0).rho_honest ∧ (roundAt cfgW 0).rho_honest < 1
      ∧ 0 ≤ (roundAt cfgW 0).rho_dev ∧ (roundAt cfgW 0).rho_dev < 1 :=
  claim_C8_orphan_risk cfgW 0 (by norm_num [cfgW]) (by norm_num [cfgW])
    (by rw [roundAt, roundOf_delta_sec]; norm_num [cfgW])

/-- C9: in every round, all miners with strictly positive share record the
same deviate flag, because the profit comparison reduces to
`(1 - rho_dev) * (X_t + G_t) > (1 - rho_honest) * X_t`: the per-miner cost
cancels and the positive share factors out. -/
theorem claim_C9_uniform_flag (cfg : Config) (t i j : ℕ)
    (hi : 0 < cfg.shares.getD i 0) (hj : 0 < cfg.shares.getD j 0) :
    (recordAt cfg i t).dev_flag = (recordAt cfg j t).dev_flag
      ∧ ((recordAt cfg i t).dev_flag = 1
          ↔ (1 - (roundAt cfg t).rho_dev) * ((roundAt cfg t).X_t + (roundAt cfg t).G_t)
              > (1 - (roundAt cfg t).rho_honest) * (roundAt cfg t).X_t) := by
  have key : ∀ k, 0 < cfg.shares.getD k 0 →
      ((recordAt cfg k t).dev_flag = 1
        ↔ (1 - (roundAt cfg t).rho_dev) * ((roundAt cfg t).X_t + (roundAt cfg t).G_t)
            > (1 - (roundAt cfg t).rho_honest) * (roundAt cfg t).X_t) := by
    intro k hk
    rw [show (recordAt cfg k t).dev_flag = 1
          ↔ (recordAt cfg k t).profit_dev > (recordAt cfg k t).profit_honest from
        decide_and_record_flag_one_iff t _ _]
    rw [recordAt_profit_dev, recordAt_profit_honest, gt_iff_lt, sub_lt_sub_iff_right,
      mul_assoc, mul_assoc, mul_lt_mul_left hk]
  refine ⟨?_, key i hi⟩
  rcases recordAt_flag_cases cfg i t with hfi | hfi <;>
    rcases recordAt_flag_cases cfg j t with hfj | hfj
  · rw [hfi, hfj]
  · exact absurd ((key j hj).mpr ((key i hi).mp hfi)) (by rw [hfj]; norm_num)
  · exact absurd ((key i hi).mpr ((key j hj).mp hfj)) (by rw [hfi]; norm_num)
  · rw [hfi, hfj]

/-- Witness for C9 at the concrete configuration `cfgW`, round `0`. -/
theorem claim_C9_witness :
    (recordAt cfgW 0 0).dev_flag = (recordAt cfgW 0 0).dev_flag
      ∧ ((recordAt cfgW 0 0).dev_flag = 1
          ↔ (1 - (roundAt cfgW 0).rho_dev) * ((roundAt cfgW 0).X_t + (roundAt cfgW 0).G_t)
              > (1 - (roundAt cfgW 0).rho_honest) * (roundAt cfgW 0).X_t) :=
  claim_C9_uniform_flag cfgW 0 0 0 (by norm_num [cfgW]) (by norm_num [cfgW])

lemma adaptive_B_bounds (cfg : Config) (h1 : cfg.B_min_vB ≤ cfg.B_max_vB)
    (h0 : 0 ≤ cfg.B_min_vB) (hd : 0 ≤ cfg.delta_step) (B U : ℝ)
    (hB : cfg.B_min_vB ≤ B ∧ B ≤ cfg.B_max_vB) :
    cfg.B_min_vB ≤ adaptive_B cfg B U ∧ adaptive_B cfg B U ≤ cfg.B_max_vB := by
  have hBpos : 0 ≤ B := le_trans h0 hB.1
  rw [adaptive_B]
  split
  · exact hB
  · split
    · constructor
      · exact le_min h1 (by nlinarith [mul_nonneg hd hBpos, hB.1])
      · exact min_le_left _ _
    · split
      · constructor
        · exact le_max_left _ _
        · exact max_le h1 (by nlinarith [mul_nonneg hd hBpos, hB.2])
      · exact hB

/-- C6 (amended): with bounds `0 <= B_min <= B_max` and a non-negative
relative step, the controller capacity stays within `[B_min, B_max]` at
every round; the adaptive update grows by the relative step capped at
`B_max` above target utilization, shrinks floored at `B_min` below target,
and leaves capacity unchanged at target or when disabled. -/
theorem claim_C6_capacity_bounds (cfg : Config)
    (h1 : cfg.B_min_vB ≤ cfg.B_max_vB) (h0 : 0 ≤ cfg.B_min_vB)
    (hd : 0 ≤ cfg.delta_step) :
    (∀ t, cfg.B_min_vB ≤ (ctrlAt cfg t).Bt_vB ∧ (ctrlAt cfg t).Bt_vB ≤ cfg.B_max_vB)
      ∧ (∀ B U, cfg.enable_adaptive = true → U > cfg.U_star
          → adaptive_B cfg B U = min cfg.B_max_vB ((1 + cfg.delta_step) * B))
      ∧ (∀ B U, cfg.enable_adaptive = true → U < cfg.U_star
          → adaptive_B cfg B U = max cfg.B_min_vB ((1 - cfg.delta_step) * B))
      ∧ (∀ B U, U = cfg.U_star ∨ cfg.enable_adaptive = false → adaptive_B cfg B U = B) := by
  refine ⟨?_, ?_, ?_, ?_⟩
  · intro t
    induction t with
    | zero => exact ⟨le_refl _, h1⟩
    | succ t ih =>
      show cfg.B_min_vB ≤ (roundOf cfg (ctrlAt cfg t) t).Bt_vB'
        ∧ (roundOf cfg (ctrlAt cfg t) t).Bt_vB' ≤ cfg.B_max_vB
      rw [roundOf_Bt]
      exact adaptive_B_bounds cfg h1 h0 hd _ _ ih
  · intro B U he hu
    rw [adaptive_B]
    simp [he, hu]
  · intro B U he hu
    rw [adaptive_B]
    simp [he, hu, asymm hu]
  · intro B U h
    rcases h with h | h
    · subst h
      rw [adaptive_B]
      simp
    · rw [adaptive_B]
      simp [h]

/-- Witness for the amended C6 at the concrete configuration `cfgW`. -/
theorem claim_C6_witness :
    (∀ t, cfgW.B_min_vB ≤ (ctrlAt cfgW t).Bt_vB ∧ (ctrlAt cfgW t).Bt_vB ≤ cfgW.B_max_vB)
      ∧ (∀ B U, cfgW.enable_adaptive = true → U > cfgW.U_star
          → adaptive_B cfgW B U = min cfgW.B_max_vB ((1 + cfgW.delta_step) * B))
      ∧ (∀ B U, cfgW.enable_adaptive = true → U < cfgW.U_star
          → adaptive_B cfgW B U = max cfgW.B_min_vB ((1 - cfgW.delta_step) * B))
      ∧ (∀ B U, U = cfgW.U_star ∨ cfgW.enable_adaptive = false → adaptive_B cfgW B U = B) :=
  claim_C6_capacity_bounds cfgW (by norm_num [cfgW]) (by norm_num [cfgW])
    (by norm_num [cfgW])

/-- Counterexample to C6 as stated: with ordered bounds `1 <= 2` but a
negative relative step, one adaptive update above target drives the
capacity to `-2`, strictly below `B_min`. -/
theorem claim_C6_counterexample :
    cfg6x.B_min_vB ≤ cfg6x.B_max_vB ∧ (ctrlAt cfg6x 1).Bt_vB < cfg6x.B_min_vB := by
  have hU : (roundOf cfg6x (ctrlAt cfg6x 0) 0).U_t = 1 := by
    rw [roundOf_U]
    norm_num [ctrlAt, blockAt, cfg6x, cfgW, rowD]
  constructor
  · norm_num [cfg6x, cfgW]
  · show (roundOf cfg6x (ctrlAt cfg6x 0) 0).Bt_vB' < cfg6x.B_min_vB
    rw [roundOf_Bt, hU, adaptive_B]
    norm_num [ctrlAt, cfg6x, cfgW, min_def]

/-- C7 (amended): the validation `run_once` performs before any round
executes succeeds iff the block feed is non-empty with all of
`total_vbytes`, `avg_sat_per_vb`, `mev_sat`, `date`, `block_subsidy_sat`
and `btc_usd` present and the daily-cost table is non-empty; only `height`
and `miner_id` may be absent without causing a fatal error before the
rounds begin. -/
theorem claim_C7_validation (cols : BlockTableCols) (cfg : Config) :
    exceptOk (run_once_checked cols cfg) = true
      ↔ (cfg.block_data.length ≠ 0 ∧ requiredColsPresent cols = true
          ∧ cfg.daily_costs.length ≠ 0 ∧ cols.has_btc_usd = true) := by
  rw [run_once_checked, validateInputs]
  split_ifs with h1 h2 h3 h4
  · simp [exceptOk, Except.map, h1]
  · simp [exceptOk, Except.map, h2]
  · simp [exceptOk, Except.map, h3]
  · simp [exceptOk, Except.map, h4]
  · simp [exceptOk, Except.map, h1, h2, h3, h4]

/-- Counterexample to C7 as stated: a feed with all five required columns,
a non-empty cost table, but no `btc_usd` column is rejected before any
round executes, although the claim says `btc_usd` may be absent without a
fatal error. -/
theorem claim_C7_counterexample :
    exceptOk (run_once_checked cols7x cfgW) = false
      ∧ cfgW.block_data.length ≠ 0
      ∧ requiredColsPresent cols7x = true
      ∧ cfgW.daily_costs.length ≠ 0 := by
  refine ⟨?_, ?_, ?_, ?_⟩
  · simp [run_once_checked, validateInputs, cols7x, cfgW, requiredColsPresent,
      exceptOk, Except.map]
  · simp [cfgW]
  · decide
  · simp [cfgW]

/-- C10: invoking `run_once` twice with the same arguments yields identical
results in every metric field: the computation is fully deterministic. -/
theorem claim_C10_deterministic (cfg1 cfg2 : Config) (h : cfg1 = cfg2) :
    (run_once cfg1).beta_bar = (run_once cfg2).beta_bar
      ∧ (run_once cfg1).ROI_mean = (run_once cfg2).ROI_mean
      ∧ (run_once cfg1).ROI_std = (run_once cfg2).ROI_std
      ∧ (run_once cfg1).stable_bft = (run_once cfg2).stable_bft
      ∧ (run_once cfg1).rho_honest = (run_once cfg2).rho_honest
      ∧ (run_once cfg1).rho_dev = (run_once cfg2).rho_dev
      ∧ (run_once cfg1).pr_D_ge_1 = (run_once cfg2).pr_D_ge_1 := by
  subst h
  exact ⟨rfl, rfl, rfl, rfl, rfl, rfl, rfl⟩

/-- Witness for C10: two invocations on the concrete configuration `cfgW`. -/
theorem claim_C10_witness :
    (run_once cfgW).beta_bar = (run_once cfgW).beta_bar
      ∧ (run_once cfgW).ROI_mean = (run_once cfgW).ROI_mean
      ∧ (run_once cfgW).ROI_std = (run_once cfgW).ROI_std
      ∧ (run_once cfgW).stable_bft = (run_once cfgW).stable_bft
      ∧ (run_once cfgW).rho_honest = (run_once cfgW).rho_honest
      ∧ (run_once cfgW).rho_dev = (run_once cfgW).rho_dev
      ∧ (run_once cfgW).pr_D_ge_1 = (run_once cfgW).pr_D_ge_1 :=
  claim_C10_deterministic cfgW cfgW rfl

lemma blockCost_c3x_zero : blockCost c3x 0 0 = 0 := by
  simp [blockCost, costMapGet, costSatPerBlock, blockBtcPrice, fallbackBtcPrice,
    blockAt, c3x, cfgW, rowD, costRowD]

/-- Counterexample to C3 as stated: a single miner with share `1.0`, cost
`0` every round, and latency penalty `w = 0`, but a positive deviation
bonus (`G_norm = 1`): in round `0` the deviation profit strictly exceeds
the honest profit, and `beta_bar = 1`, not `0`. -/
theorem claim_C3_counterexample :
    c3x.shares = [1] ∧ c3x.costs = [0] ∧ c3x.w_sec = 0
      ∧ (∀ t < c3x.T, ∀ i < numMiners c3x, blockCost c3x t i = 0)
      ∧ (recordAt c3x 0 0).profit_dev > (recordAt c3x 0 0).profit_honest
      ∧ beta_bar c3x = 1 := by
  have hδ : (roundAt c3x 0).delta_sec = 0 := by
    rw [roundAt, roundOf_delta_sec]
    norm_num [c3x, cfgW]
  have hρd1 : 1 - (roundAt c3x 0).rho_dev = 1 := by
    rw [one_sub_rho_dev, hδ]
    norm_num [c3x, cfgW, Real.exp_zero]
  have hρh1 : 1 - (roundAt c3x 0).rho_honest = 1 := by
    rw [one_sub_rho_honest, hδ]
    norm_num [Real.exp_zero]
  have hX : (roundAt c3x 0).X_t = 0 := by
    norm_num [roundAt, roundOf, ctrlAt, blockAt, c3x, cfgW, rowD]
  have hG : (roundAt c3x 0).G_t = 1 := by
    rw [roundAt, roundOf_G, roundOf_U]
    norm_num [ctrlAt, blockAt, c3x, cfgW, rowD]
  have hgt : (recordAt c3x 0 0).profit_dev > (recordAt c3x 0 0).profit_honest := by
    rw [recordAt_profit_dev, recordAt_profit_honest, hρd1, hρh1, hX, hG,
      blockCost_c3x_zero]
    norm_num [c3x, cfgW]
  have hflag : (recordAt c3x 0 0).dev_flag = 1 := (recordAt_flag_one_iff c3x 0 0).mpr hgt
  have hidx : actualMinerIdx c3x 0 = some 0 := rfl
  have hcnt : actualBlocksCount c3x = 1 := rfl
  have hdev : deviates c3x = 1 := by
    rw [deviates, show c3x.T = 1 from rfl, Finset.sum_range_one]
    simp only [devFlagActual, hidx]
    exact hflag
  refine ⟨rfl, rfl, rfl, ?_, hgt, ?_⟩
  · intro t ht i hi
    rw [show c3x.T = 1 from rfl] at ht
    rw [show numMiners c3x = 1 from rfl] at hi
    have ht0 : t = 0 := Nat.lt_one_iff.mp ht
    have hi0 : i = 0 := Nat.lt_one_iff.mp hi
    rw [ht0, hi0]
    exact blockCost_c3x_zero
  · rw [beta_bar, hcnt, hdev]
    norm_num

/-- C3 (amended): for a run with a single miner having share `1.0` and
cost `0` in every round, latency penalty `w = 0`, and deviation bonus
`G_norm = 0`, the deviation profit never strictly exceeds the honest
profit in any round, and therefore `beta_bar = 0`. -/
theorem claim_C3_amended (cfg : Config)
    (_hshare : cfg.shares = [1]) (_hcost : cfg.costs = [0])
    (hw : cfg.w_sec = 0) (hG : cfg.G_norm = 0)
    (_hbc : ∀ t < cfg.T, ∀ i < numMiners cfg, blockCost cfg t i = 0) :
    (∀ i t, ¬ (recordAt cfg i t).profit_dev > (recordAt cfg i t).profit_honest)
      ∧ beta_bar cfg = 0 := by
  have hpp : ∀ i t, (recordAt cfg i t).profit_dev = (recordAt cfg i t).profit_honest := by
    intro i t
    have hρ : (roundAt cfg t).rho_dev = (roundAt cfg t).rho_honest := by
      rw [roundAt, roundOf_rho_dev, roundOf_rho_honest, hw, add_zero]
    have hGt : (roundAt cfg t).G_t = 0 := by
      rw [roundAt, roundOf_G, hG, zero_mul]
    rw [recordAt_profit_dev, recordAt_profit_honest, hρ, hGt, add_zero]
  have hflag0 : ∀ i t, (recordAt cfg i t).dev_flag = 0 := by
    intro i t
    rw [recordAt_dev_flag, hpp]
    simp
  refine ⟨fun i t => ?_, ?_⟩
  · rw [hpp]
    exact lt_irrefl _
  · have hdev0 : deviates cfg = 0 := by
      rw [deviates]
      apply Finset.sum_eq_zero
      intro t _
      cases hidx : actualMinerIdx cfg t with
      | none => simp [devFlagActual, hidx]
      | some i => simp [devFlagActual, hidx, hflag0]
    rw [beta_bar, hdev0]
    split_ifs
    · exact zero_div _
    · rfl

/-- Witness for the amended C3 at the concrete configuration `c3w`. -/
theorem claim_C3_witness :
    (∀ i t, ¬ (recordAt c3w i t).profit_dev > (recordAt c3w i t).profit_honest)
      ∧ beta_bar c3w = 0 :=
  claim_C3_amended c3w rfl rfl rfl rfl
    (by
      intro t ht i hi
      rw [show c3w.T = 1 from rfl] at ht
      rw [show numMiners c3w = 1 from rfl] at hi
      rw [Nat.lt_one_iff.mp ht, Nat.lt_one_iff.mp hi]
      exact blockCost_c3x_zero)

/-- C4: holding the policy archetype, fee floor, block feed, cost table and
all other hyperparameters fixed, increasing `G_ratio` (hence
`G_norm = G_ratio * mean X_t`) never decreases the run's `beta_bar`, under
the data-model invariants (non-negative shares and block sizes, positive
target utilization and capacity bounds, non-negative adaptive step and mean
revenue). -/
theorem claim_C4_monotone (cfg : Config) (r1 r2 : ℝ)
    (hshares : ∀ s ∈ cfg.shares, 0 ≤ s) (hU : 0 < cfg.U_star)
    (hfeed : ∀ b ∈ cfg.block_data, 0 ≤ b.total_vbytes)
    (hb1 : 0 < cfg.B_min_vB) (hb2 : 0 < cfg.B_max_vB) (hds : 0 ≤ cfg.delta_step)
    (hXavg : 0 ≤ meanX cfg.block_data) (hr : r1 ≤ r2) :
    beta_bar (withG cfg (r1 * meanX cfg.block_data))
      ≤ beta_bar (withG cfg (r2 * meanX cfg.block_data)) :=
  beta_bar_mono_G cfg _ _ hshares hU hfeed hb1 hb2 hds
    (mul_le_mul_of_nonneg_right hr hXavg)

/-- Witness for C4 at the concrete configuration `cfgW` with
`G_ratio` increased from `0` to `1`. -/
theorem claim_C4_witness :
    beta_bar (withG cfgW (0 * meanX cfgW.block_data))
      ≤ beta_bar (withG cfgW (1 * meanX cfgW.block_data)) :=
  claim_C4_monotone cfgW 0 1 (by norm_num [cfgW]) (by norm_num [cfgW])
    (by norm_num [cfgW, rowD]) (by norm_num [cfgW]) (by norm_num [cfgW])
    (by norm_num [cfgW]) (by norm_num [meanX, cfgW, rowD]) (by norm_num)

end BtcExp
